import Mathlib

/-!
# Verification of the TV-notifier event ingestion & query engine

A shallow embedding of `tv_notifier.py`: the SQLite-backed event store
(`INSERT OR IGNORE` deduplication, lexical `BETWEEN` range queries on ISO
date strings), the calendar-date arithmetic used by the weekly view
(`date.toordinal` / `date.fromordinal` / `weekday`), the weekly grouping
and rendering of `send_weekly_schedule`, and the per-event message
construction of `send_notifications`.
-/

set_option maxHeartbeats 1000000

namespace TvNotifier

/-! ## The event store

One row of the `events` table (`uid TEXT PRIMARY KEY, summary TEXT,
start_date DATE`).  SQLite stores the ISO date strings bound by the Python
code as TEXT, so `start_date` is a string here as it is on disk. -/

structure Event where
  uid : String
  summary : String
  start_date : String
  deriving DecidableEq, Repr

/-- The `events` table: rows in insertion order. -/
abbrev Store := List Event

/-- The `uid` column. -/
def uids (s : Store) : List String := s.map (·.uid)

/-- `INSERT OR IGNORE INTO events VALUES (?,?,?)` keyed on the `uid`
primary key: inserts only when no row with the same `uid` exists, and
reports whether a row was inserted (SQLite's `changes()` after the
statement). -/
def insertIfAbsent (e : Event) (s : Store) : Bool × Store :=
  if e.uid ∈ uids s then (false, s) else (true, s ++ [e])

/-- The per-record loop of `update_schedule`: each record is inserted via
`insertIfAbsent`; a record whose insert raises `sqlite3.Error` (modelled by
the oracle `insFail`) is logged and skipped, and processing continues with
the remaining records. -/
def processEvents (insFail : Event → Bool) : List Event → Store → Store
  | [], s => s
  | e :: rest, s =>
      processEvents insFail rest (if insFail e then s else (insertIfAbsent e s).2)

/-- `update_schedule`: fetch the feed (`none` models a
`requests.exceptions.RequestException`), parse it (`none` models
`icalendar` raising), then run the per-record insert loop.  Both failure
branches are caught by `except` clauses that only log, leaving the store
untouched. -/
def update_schedule (s : Store) (fetchResult : Option String)
    (parse : String → Option (List Event)) (insFail : Event → Bool) : Store :=
  match fetchResult with
  | none => s
  | some raw =>
    match parse raw with
    | none => s
    | some evs => processEvents insFail evs s

/-! ## SQLite string comparison

`WHERE start_date BETWEEN ? AND ?` compares TEXT values with the BINARY
collation: bytewise lexicographic order.  On the code-point lists backing
Lean strings this is `lexLe`. -/

/-- Bytewise lexicographic `≤` on character lists (SQLite BINARY collation
on the stored ISO date strings). -/
def lexLe : List Char → List Char → Bool
  | [], _ => true
  | _ :: _, [] => false
  | a :: as, b :: bs =>
      if a.toNat < b.toNat then true
      else if b.toNat < a.toNat then false
      else lexLe as bs

/-- Lexicographic `≤` on strings. -/
def strLe (a b : String) : Bool := lexLe a.data b.data

/-- `SELECT uid, summary, start_date FROM events WHERE start_date BETWEEN ? AND ?`:
the rows whose `start_date` lies in the closed lexical range. -/
def queryByDateRange (s : Store) (lo hi : String) : List Event :=
  s.filter (fun e => strLe lo e.start_date && strLe e.start_date hi)

/-- `SELECT uid, summary FROM events WHERE start_date = ?`. -/
def queryByDate (s : Store) (d : String) : List Event :=
  s.filter (fun e => e.start_date == d)

/-! ## Calendar dates

`datetime.date` values: proleptic Gregorian calendar, with
`toordinal` / `fromordinal` / `weekday` translated from CPython's
`datetime` module (`_ymd2ord`, `_ord2ymd`, `date.weekday`). -/

structure CalDate where
  y : Nat
  m : Nat
  d : Nat
  deriving DecidableEq, Repr

/-- `_is_leap` from CPython `datetime`. -/
def isLeap (y : Nat) : Bool := y % 4 == 0 && (y % 100 != 0 || y % 400 == 0)

/-- `_DAYS_IN_MONTH` (February = 28; leap handled separately). -/
def DAYS_IN_MONTH : Nat → Nat
  | 1 => 31 | 2 => 28 | 3 => 31 | 4 => 30 | 5 => 31 | 6 => 30
  | 7 => 31 | 8 => 31 | 9 => 30 | 10 => 31 | 11 => 30 | 12 => 31
  | _ => 0

/-- `_DAYS_BEFORE_MONTH`: days in the year preceding the first of month `m`. -/
def DAYS_BEFORE_MONTH : Nat → Nat
  | 1 => 0 | 2 => 31 | 3 => 59 | 4 => 90 | 5 => 120 | 6 => 151
  | 7 => 181 | 8 => 212 | 9 => 243 | 10 => 273 | 11 => 304 | 12 => 334
  | _ => 365

/-- Days in month `m` of year `y`, leap February included
(`_days_in_month`). -/
def daysInMonthY (y m : Nat) : Nat :=
  DAYS_IN_MONTH m + (if m == 2 && isLeap y then 1 else 0)

/-- A constructible `datetime.date`: the validation performed by the
`date` constructor (`MINYEAR ≤ y ≤ MAXYEAR`, `1 ≤ m ≤ 12`,
`1 ≤ d ≤ days_in_month`). -/
def CalDate.valid (t : CalDate) : Prop :=
  1 ≤ t.y ∧ t.y ≤ 9999 ∧ 1 ≤ t.m ∧ t.m ≤ 12 ∧ 1 ≤ t.d ∧ t.d ≤ daysInMonthY t.y t.m

instance (t : CalDate) : Decidable t.valid := by unfold CalDate.valid; infer_instance

/-- `_days_before_year y`: days before January 1 of year `y`
(`(y-1)*365 + (y-1)//4 - (y-1)//100 + (y-1)//400`). -/
def daysBeforeYear (y : Nat) : Nat :=
  (y - 1) * 365 + (y - 1) / 4 + (y - 1) / 400 - (y - 1) / 100

/-- `date.toordinal`: day 1 = 0001-01-01 (`_ymd2ord`). -/
def toOrdinal (t : CalDate) : Nat :=
  daysBeforeYear t.y + DAYS_BEFORE_MONTH t.m
    + (if t.m > 2 && isLeap t.y then 1 else 0) + t.d

/-- Weekday of an ordinal day number, Monday = 0 … Sunday = 6
(ordinal 1, 0001-01-01, is a Monday). -/
def wdOfOrd (n : Nat) : Nat := (n + 6) % 7

/-- `date.weekday()`: Monday = 0 … Sunday = 6. -/
def weekday (t : CalDate) : Nat := wdOfOrd (toOrdinal t)

/-- Ordinal of `today + timedelta(days=(6 - today.weekday()) % 7)`, the end
bound of the weekly view (`sunday` in `send_weekly_schedule`). -/
def sundayOrdinal (t : CalDate) : Nat := toOrdinal t + (6 - weekday t) % 7

/-- `_ord2ymd` from CPython `datetime`: the date with the given ordinal. -/
def ord2ymd (nn : Nat) : CalDate :=
  let n0 := nn - 1
  let n400 := n0 / 146097
  let r400 := n0 % 146097
  let n100 := r400 / 36524
  let r100 := r400 % 36524
  let n4 := r100 / 1461
  let r4 := r100 % 1461
  let n1 := r4 / 365
  let nr := r4 % 365
  let year := n400 * 400 + 1 + n100 * 100 + n4 * 4 + n1
  if n1 == 4 || n100 == 4 then ⟨year - 1, 12, 31⟩
  else
    let leap := n1 == 3 && (n4 != 24 || n100 == 3)
    let month := (nr + 50) / 32
    let preceding := DAYS_BEFORE_MONTH month + (if month > 2 && leap then 1 else 0)
    if preceding > nr then
      let month1 := month - 1
      let preceding1 :=
        preceding - (DAYS_IN_MONTH month1 + (if month1 == 2 && leap then 1 else 0))
      ⟨year, month1, nr - preceding1 + 1⟩
    else ⟨year, month, nr - preceding + 1⟩

/-- `sunday = today + timedelta(days=(6 - today.weekday()) % 7)` as a date. -/
def sundayDate (t : CalDate) : CalDate := ord2ymd (sundayOrdinal t)

/-- `tomorrow = date.today() + timedelta(days=1)` in `send_notifications`. -/
def tomorrowDate (t : CalDate) : CalDate := ord2ymd (toOrdinal t + 1)

/-! ## ISO formatting and parsing -/

/-- The decimal digit character for `k < 10`. -/
def digitChar : Nat → Char
  | 0 => '0' | 1 => '1' | 2 => '2' | 3 => '3' | 4 => '4'
  | 5 => '5' | 6 => '6' | 7 => '7' | 8 => '8' | 9 => '9'
  | _ => '0'

/-- `n` zero-padded to `w` decimal digits (most significant first), as in
`"%04d"` / `"%02d"`. -/
def padDigits : Nat → Nat → List Char
  | 0, _ => []
  | w + 1, n => digitChar (n / 10 ^ w) :: padDigits w (n % 10 ^ w)

/-- `date.isoformat()`: `YYYY-MM-DD`. -/
def isoformat (t : CalDate) : String :=
  String.mk (padDigits 4 t.y ++ '-' :: (padDigits 2 t.m ++ '-' :: padDigits 2 t.d))

/-- The numeric value of a digit character. -/
def digToNat (c : Char) : Nat := c.toNat - 48

/-- Whether `c` is a decimal digit. -/
def isDig (c : Char) : Bool := decide (48 ≤ c.toNat) && decide (c.toNat ≤ 57)

/-- `date.fromisoformat` on the `YYYY-MM-DD` shape this program stores:
ten characters, digits in the date positions, dashes between, and the
ranges the `date` constructor enforces; anything else raises (modelled by
`none`). -/
def fromIso (s : String) : Option CalDate :=
  match s.data with
  | [y1, y2, y3, y4, h1, m1, m2, h2, d1, d2] =>
    if h1 == '-' && h2 == '-' && isDig y1 && isDig y2 && isDig y3 && isDig y4
        && isDig m1 && isDig m2 && isDig d1 && isDig d2 then
      let y := digToNat y1 * 1000 + digToNat y2 * 100 + digToNat y3 * 10 + digToNat y4
      let m := digToNat m1 * 10 + digToNat m2
      let d := digToNat d1 * 10 + digToNat d2
      if (⟨y, m, d⟩ : CalDate).valid then some ⟨y, m, d⟩ else none
    else none
  | _ => none

/-- `datetime.date` comparison `a < b`: lexicographic on (year, month, day). -/
def dateLt (a b : CalDate) : Bool :=
  a.y.blt b.y || (a.y.beq b.y && (a.m.blt b.m || (a.m.beq b.m && a.d.blt b.d)))

/-- `datetime.date` comparison `a ≤ b`. -/
def dateLe (a b : CalDate) : Bool :=
  a.y.blt b.y || (a.y.beq b.y && (a.m.blt b.m || (a.m.beq b.m && a.d.ble b.d)))

/-! ## Python `str.split` with a separator

`summary.split(": ")` and `episode_info.split("x")`: split on every
non-overlapping occurrence of the separator, left to right; an empty
string yields `[""]`.  The fuel argument (initially the string length,
which every step strictly decreases below) keeps the recursion
structural. -/

/-- Whether `sep` is a prefix of the list. -/
def hasPfx : List Char → List Char → Bool
  | [], _ => true
  | _ :: _, [] => false
  | a :: as, b :: bs => a == b && hasPfx as bs

/-- Worker for `str.split`: `acc` holds the current token reversed. -/
def splitGo (s0 : Char) (srest : List Char) : Nat → List Char → List Char → List (List Char)
  | _, acc, [] => [acc.reverse]
  | 0, acc, l => [acc.reverse ++ l]
  | fuel + 1, acc, c :: rest =>
      if hasPfx (s0 :: srest) (c :: rest) then
        acc.reverse :: splitGo s0 srest fuel [] (rest.drop srest.length)
      else splitGo s0 srest fuel (c :: acc) rest

/-- Python `s.split(sep)` for a non-empty separator. -/
def pySplitOn (s sep : String) : List String :=
  match sep.data with
  | [] => [s]
  | s0 :: srest => (splitGo s0 srest s.data.length [] s.data).map String.mk

/-! ## The weekly grouped view (`send_weekly_schedule`)

`weekly_schedule` is a Python dict of dicts; dicts preserve insertion
order, so it is modelled as an association list keyed by date, each entry
holding an association list keyed by show title with its episode list. -/

/-- `weekly_schedule`: date ↦ (show title ↦ episode tokens), both levels in
insertion order. -/
abbrev Sched := List (CalDate × List (String × List String))

/-- `weekly_schedule[start_date][title].append(episode)` at the title
level: append to the title's list, creating it on first encounter. -/
def addToTitles : List (String × List String) → String → String → List (String × List String)
  | [], t, ep => [(t, [ep])]
  | (t0, eps) :: rest, t, ep =>
      if t0 == t then (t0, eps ++ [ep]) :: rest
      else (t0, eps) :: addToTitles rest t ep

/-- `weekly_schedule[start_date][title].append(episode)`: create the date
entry and the title entry when absent, then append the episode. -/
def addToSched : Sched → CalDate → String → String → Sched
  | [], dt, t, ep => [(dt, [(t, [ep])])]
  | (d0, ts) :: rest, dt, t, ep =>
      if d0 == dt then (d0, addToTitles ts t ep) :: rest
      else (d0, ts) :: addToSched rest dt t ep

/-- One iteration of the grouping loop in `send_weekly_schedule`: parse the
date (`date.fromisoformat`; failure is caught and the record skipped), skip
events already aired (`start_date < today`), unpack
`title, episode_info = summary.split(": ")` (a `ValueError` is caught and
the record skipped), require `episode_info.split("x")` to have exactly two
tokens, then record the episode and overwrite the loop-carried `season`
variable. -/
def buildStep (today : CalDate) (st : Sched × String) (e : Event) : Sched × String :=
  match fromIso e.start_date with
  | none => st
  | some dt =>
    if dateLt dt today then st
    else
      match pySplitOn e.summary ": " with
      | [title, epInfo] =>
        match pySplitOn epInfo "x" with
        | [se, ep] => (addToSched st.1 dt title ep, se)
        | _ => st
      | _ => st

/-- The grouping loop over the queried events, returning `weekly_schedule`
and the final value of the `season` loop variable. -/
def buildSchedule (today : CalDate) (evs : List Event) : Sched × String :=
  evs.foldl (buildStep today) ([], "")

/-- `buildStep` with the defensive `start_date < today` skip removed; used
to state that the skip is redundant for well-formed stores. -/
def buildStepNoSkip (_today : CalDate) (st : Sched × String) (e : Event) : Sched × String :=
  match fromIso e.start_date with
  | none => st
  | some dt =>
    match pySplitOn e.summary ": " with
    | [title, epInfo] =>
      match pySplitOn epInfo "x" with
      | [se, ep] => (addToSched st.1 dt title ep, se)
      | _ => st
    | _ => st

/-- The grouping loop built with `buildStepNoSkip`. -/
def buildScheduleNoSkip (today : CalDate) (evs : List Event) : Sched × String :=
  evs.foldl (buildStepNoSkip today) ([], "")

/-- Total number of episode entries recorded in a schedule: the measure of
how many records the grouped view includes. -/
def epCount (sch : Sched) : Nat :=
  (sch.map (fun p => (p.2.map (fun q => q.2.length)).sum)).sum

/-! ## Rendering (`send_weekly_schedule`, formatting half) -/

/-- Insert a date into an ascending list (`sorted(weekly_schedule.keys())`
step). -/
def insertSorted (dt : CalDate) : List CalDate → List CalDate
  | [] => [dt]
  | x :: xs => if dateLe dt x then dt :: x :: xs else x :: insertSorted dt xs

/-- `sorted(weekly_schedule.keys())`: the schedule's dates in ascending
order. -/
def sortDates (l : List CalDate) : List CalDate := l.foldr insertSorted []

/-- `weekly_schedule[day]` lookup for a day known to be a key. -/
def lookupSched : Sched → CalDate → List (String × List String)
  | [], _ => []
  | (d0, ts) :: rest, dt => if d0 == dt then ts else lookupSched rest dt

/-- `episode.lstrip('0')`. -/
def lstrip0 (s : String) : String := String.mk (s.data.dropWhile (· == '0'))

/-- `strftime("%A")`: full weekday name, Monday = 0. -/
def weekdayName : Nat → String
  | 0 => "Monday" | 1 => "Tuesday" | 2 => "Wednesday" | 3 => "Thursday"
  | 4 => "Friday" | 5 => "Saturday" | 6 => "Sunday" | _ => ""

/-- `strftime("%B")`: full month name. -/
def monthName : Nat → String
  | 1 => "January" | 2 => "February" | 3 => "March" | 4 => "April"
  | 5 => "May" | 6 => "June" | 7 => "July" | 8 => "August"
  | 9 => "September" | 10 => "October" | 11 => "November" | 12 => "December"
  | _ => ""

/-- `day.strftime("%A, %B %d")`: weekday name, month name, zero-padded day. -/
def dayHeading (t : CalDate) : String :=
  weekdayName (weekday t) ++ ", " ++ monthName t.m ++ " " ++ String.mk (padDigits 2 t.d)

/-- The `  • Episode {episode.lstrip('0')}` lines of one show. -/
def renderEps : List String → String
  | [] => ""
  | ep :: rest => "  • Episode " ++ lstrip0 ep ++ "\n" ++ renderEps rest

/-- The `- {show_title} (Season {season})` block of one day: note `season`
is the single loop-carried variable, shared by every title. -/
def renderTitles (season : String) : List (String × List String) → String
  | [] => ""
  | (t, eps) :: rest =>
      "- " ++ t ++ " (Season " ++ season ++ ")\n" ++ renderEps eps
        ++ renderTitles season rest

/-- The per-day blocks of the message, over the sorted dates. -/
def renderDays (sch : Sched) (season : String) : List CalDate → String
  | [] => ""
  | d :: rest =>
      "👉 " ++ dayHeading d ++ ":\n" ++ renderTitles season (lookupSched sch d)
        ++ "\n" ++ renderDays sch season rest

/-- The full weekly message built by `send_weekly_schedule`. -/
def renderMessage (sch : Sched) (season : String) : String :=
  "📅 This week's TV schedule (from today to Sunday):\n\n"
    ++ renderDays sch season (sortDates (sch.map Prod.fst))

/-- `send_weekly_schedule`: query `[today, sunday]`, reply with the fixed
no-shows text when the query or the grouped schedule is empty, otherwise
render the grouped schedule. -/
def send_weekly_schedule (store : Store) (today : CalDate) : String :=
  let events := queryByDateRange store (isoformat today) (isoformat (sundayDate today))
  if events.isEmpty then "No upcoming shows scheduled for this week."
  else
    let bs := buildSchedule today events
    if bs.1.isEmpty then "No upcoming shows scheduled for this week."
    else renderMessage bs.1 bs.2

/-! ## The per-(date, title) season variant

Modelled from the spec: the correct reimplementation "must track season
per (date, title) group, not as a single shared variable"; each title
entry stores the season token of its first-encountered record. -/

/-- Grouped schedule whose title entries carry their own season token. -/
abbrev SchedG := List (CalDate × List (String × String × List String))

/-- Title-level insert that stores the season at first encounter. -/
def addToTitlesG : List (String × String × List String) → String → String → String →
    List (String × String × List String)
  | [], t, se, ep => [(t, se, [ep])]
  | (t0, se0, eps) :: rest, t, se, ep =>
      if t0 == t then (t0, se0, eps ++ [ep]) :: rest
      else (t0, se0, eps) :: addToTitlesG rest t se ep

/-- Date-level insert for the per-group-season schedule. -/
def addToSchedG : SchedG → CalDate → String → String → String → SchedG
  | [], dt, t, se, ep => [(dt, [(t, se, [ep])])]
  | (d0, ts) :: rest, dt, t, se, ep =>
      if d0 == dt then (d0, addToTitlesG ts t se ep) :: rest
      else (d0, ts) :: addToSchedG rest dt t se ep

/-- Grouping step of the per-group-season variant (same filters as
`buildStep`). -/
def buildStepG (today : CalDate) (st : SchedG) (e : Event) : SchedG :=
  match fromIso e.start_date with
  | none => st
  | some dt =>
    if dateLt dt today then st
    else
      match pySplitOn e.summary ": " with
      | [title, epInfo] =>
        match pySplitOn epInfo "x" with
        | [se, ep] => addToSchedG st dt title se ep
        | _ => st
      | _ => st

/-- The per-group-season grouping loop. -/
def buildScheduleG (today : CalDate) (evs : List Event) : SchedG :=
  evs.foldl (buildStepG today) []

/-- `weekly_schedule[day]` lookup in the per-group-season schedule. -/
def lookupSchedG : SchedG → CalDate → List (String × String × List String)
  | [], _ => []
  | (d0, ts) :: rest, dt => if d0 == dt then ts else lookupSchedG rest dt

/-- Title block rendering with each title's own season. -/
def renderTitlesG : List (String × String × List String) → String
  | [] => ""
  | (t, se, eps) :: rest =>
      "- " ++ t ++ " (Season " ++ se ++ ")\n" ++ renderEps eps ++ renderTitlesG rest

/-- Per-day blocks for the per-group-season schedule. -/
def renderDaysG (sch : SchedG) : List CalDate → String
  | [] => ""
  | d :: rest =>
      "👉 " ++ dayHeading d ++ ":\n" ++ renderTitlesG (lookupSchedG sch d)
        ++ "\n" ++ renderDaysG sch rest

/-- Full weekly message of the per-group-season variant. -/
def renderMessageG (sch : SchedG) : String :=
  "📅 This week's TV schedule (from today to Sunday):\n\n"
    ++ renderDaysG sch (sortDates (sch.map Prod.fst))

/-! ## Tomorrow notifications (`send_notifications`) -/

/-- The message text built for one row: the two-part split
`summary.split(": ")` when it yields exactly two parts, the raw-summary
fallback otherwise. -/
def notificationMessage (summary : String) : String :=
  match pySplitOn summary ": " with
  | [showName, episode] =>
      "Reminder: " ++ showName ++ "\n🔴 Episode: " ++ episode ++ " airs tomorrow!"
  | _ => "Reminder: " ++ summary ++ " airs tomorrow!"

/-- `send_notifications`: one message per event dated tomorrow. -/
def send_notifications (store : Store) (today : CalDate) : List String :=
  (queryByDate store (isoformat (tomorrowDate today))).map
    (fun e => notificationMessage e.summary)

/-- Substring occurrence on character lists (used to state what a rendered
message contains). -/
def hasSub (needle : List Char) : List Char → Bool
  | [] => needle.isEmpty
  | c :: t => hasPfx needle (c :: t) || hasSub needle t

/-- Whether `needle` occurs in `hay`. -/
def containsStr (hay needle : String) : Bool := hasSub needle.data hay.data

/-! ## Store lemmas -/

theorem uids_append (s t : Store) : uids (s ++ t) = uids s ++ uids t := by
  simp [uids]

theorem insertIfAbsent_of_mem (e : Event) (s : Store) (h : e.uid ∈ uids s) :
    insertIfAbsent e s = (false, s) := by
  unfold insertIfAbsent
  rw [if_pos h]

theorem insertIfAbsent_of_not_mem (e : Event) (s : Store) (h : e.uid ∉ uids s) :
    insertIfAbsent e s = (true, s ++ [e]) := by
  unfold insertIfAbsent
  rw [if_neg h]

theorem mem_uids_insertIfAbsent (u : String) (e : Event) (s : Store) :
    u ∈ uids (insertIfAbsent e s).2 ↔ u ∈ uids s ∨ u = e.uid := by
  unfold insertIfAbsent
  split
  · rename_i hmem
    simp only [Prod.snd]
    constructor
    · exact Or.inl
    · rintro (h | h)
      · exact h
      · exact h ▸ hmem
  · simp [uids_append, uids]

theorem mem_uids_processEvents (f : Event → Bool) (evs : List Event) (s : Store)
    (u : String) (h : u ∈ uids s) : u ∈ uids (processEvents f evs s) := by
  induction evs generalizing s with
  | nil => exact h
  | cons e rest ih =>
    simp only [processEvents]
    apply ih
    split
    · exact h
    · exact (mem_uids_insertIfAbsent u e s).mpr (Or.inl h)

theorem mem_uids_processEvents_of_mem (evs : List Event) (s : Store)
    (e : Event) (he : e ∈ evs) :
    e.uid ∈ uids (processEvents (fun _ => false) evs s) := by
  induction evs generalizing s with
  | nil => cases he
  | cons e0 rest ih =>
    simp only [processEvents, if_neg Bool.false_ne_true]
    rcases List.mem_cons.mp he with h | h
    · subst h
      apply mem_uids_processEvents
      exact (mem_uids_insertIfAbsent e.uid e s).mpr (Or.inr rfl)
    · exact ih _ h

theorem processEvents_eq_self (f : Event → Bool) (evs : List Event) (s : Store)
    (h : ∀ e ∈ evs, e.uid ∈ uids s) : processEvents f evs s = s := by
  induction evs with
  | nil => rfl
  | cons e rest ih =>
    have he : e.uid ∈ uids s := h e (List.mem_cons_self e rest)
    have hins : (insertIfAbsent e s).2 = s := by
      unfold insertIfAbsent
      rw [if_pos he]
    simp only [processEvents, hins, if_pos, if_neg]
    have : (if f e then s else s) = s := by split <;> rfl
    rw [this]
    exact ih (fun e2 h2 => h e2 (List.mem_cons_of_mem e h2))

theorem processEvents_idem (evs : List Event) (s : Store) :
    processEvents (fun _ => false) evs (processEvents (fun _ => false) evs s)
      = processEvents (fun _ => false) evs s :=
  processEvents_eq_self _ evs _ (fun e he => mem_uids_processEvents_of_mem evs s e he)

/-- C1.  A second insert attempt with the same `uid` is a no-op: the store
is unchanged, so the first-seen `summary`/`start_date` row found for that
`uid` persists; and running the ingestion loop twice over the same parsed
feed leaves the row count after the second run equal to the row count
after the first. -/
theorem claim_c1_insert_noop_and_sync_idempotent (e e2 : Event) (s : Store)
    (h : e2.uid = e.uid) (evs : List Event) :
    (insertIfAbsent e2 ((insertIfAbsent e s).2)).2 = (insertIfAbsent e s).2
  ∧ ((insertIfAbsent e2 ((insertIfAbsent e s).2)).2.find? (fun r => r.uid == e.uid)
      = ((insertIfAbsent e s).2.find? (fun r => r.uid == e.uid)))
  ∧ (processEvents (fun _ => false) evs (processEvents (fun _ => false) evs s)).length
      = (processEvents (fun _ => false) evs s).length := by
  have hmem : e2.uid ∈ uids (insertIfAbsent e s).2 :=
    (mem_uids_insertIfAbsent e2.uid e s).mpr (Or.inr h)
  have hnoop : insertIfAbsent e2 ((insertIfAbsent e s).2) = (false, (insertIfAbsent e s).2) :=
    insertIfAbsent_of_mem e2 _ hmem
  refine ⟨by rw [hnoop], by rw [hnoop], ?_⟩
  rw [processEvents_idem]

theorem claim_c1_insert_noop_and_sync_idempotent_witness :
    (insertIfAbsent ⟨"u1", "B: 9x99", "2024-01-02"⟩
        ((insertIfAbsent ⟨"u1", "A: 1x01", "2024-01-01"⟩ []).2)).2
      = (insertIfAbsent ⟨"u1", "A: 1x01", "2024-01-01"⟩ []).2
  ∧ ((insertIfAbsent ⟨"u1", "B: 9x99", "2024-01-02"⟩
        ((insertIfAbsent ⟨"u1", "A: 1x01", "2024-01-01"⟩ []).2)).2.find?
          (fun r => r.uid == (⟨"u1", "A: 1x01", "2024-01-01"⟩ : Event).uid)
      = ((insertIfAbsent ⟨"u1", "A: 1x01", "2024-01-01"⟩ []).2.find?
          (fun r => r.uid == (⟨"u1", "A: 1x01", "2024-01-01"⟩ : Event).uid)))
  ∧ (processEvents (fun _ => false) [⟨"u2", "C: 2x02", "2024-02-02"⟩]
        (processEvents (fun _ => false) [⟨"u2", "C: 2x02", "2024-02-02"⟩] [])).length
      = (processEvents (fun _ => false) [⟨"u2", "C: 2x02", "2024-02-02"⟩] []).length :=
  claim_c1_insert_noop_and_sync_idempotent ⟨"u1", "A: 1x01", "2024-01-01"⟩
    ⟨"u1", "B: 9x99", "2024-01-02"⟩ [] rfl [⟨"u2", "C: 2x02", "2024-02-02"⟩]

/-- C2.  `insertIfAbsent` reports whether an insert occurred: the first
call with a fresh `uid` reports `true`, a second call with the identical
record reports `false` and leaves the store unchanged, and the store then
contains exactly one row with that `uid`. -/
theorem claim_c2_insert_reports_occurrence (e : Event) (s : Store)
    (h : e.uid ∉ uids s) :
    (insertIfAbsent e s).1 = true
  ∧ (insertIfAbsent e ((insertIfAbsent e s).2)).1 = false
  ∧ (insertIfAbsent e ((insertIfAbsent e s).2)).2 = (insertIfAbsent e s).2
  ∧ ((insertIfAbsent e s).2.filter (fun r => r.uid == e.uid)).length = 1 := by
  have h1 : insertIfAbsent e s = (true, s ++ [e]) := insertIfAbsent_of_not_mem e s h
  have hmem : e.uid ∈ uids (s ++ [e]) := by
    rw [uids_append]
    simp [uids]
  have h2 : insertIfAbsent e (s ++ [e]) = (false, s ++ [e]) :=
    insertIfAbsent_of_mem e _ hmem
  have hfil : s.filter (fun r => r.uid == e.uid) = [] := by
    rw [List.filter_eq_nil_iff]
    intro r hr
    simp only [Bool.not_eq_true, beq_eq_false_iff_ne, ne_eq]
    intro hru
    exact h (hru ▸ List.mem_map_of_mem (·.uid) hr)
  refine ⟨by rw [h1], by rw [h1]; exact by rw [h2], by rw [h1]; exact by rw [h2], ?_⟩
  rw [h1]
  simp only [List.filter_append, hfil, List.nil_append, List.filter_cons]
  simp

theorem claim_c2_insert_reports_occurrence_witness :
    (insertIfAbsent ⟨"7", "A: 1x01", "2024-01-01"⟩ []).1 = true
  ∧ (insertIfAbsent ⟨"7", "A: 1x01", "2024-01-01"⟩
        ((insertIfAbsent ⟨"7", "A: 1x01", "2024-01-01"⟩ []).2)).1 = false
  ∧ (insertIfAbsent ⟨"7", "A: 1x01", "2024-01-01"⟩
        ((insertIfAbsent ⟨"7", "A: 1x01", "2024-01-01"⟩ []).2)).2
      = (insertIfAbsent ⟨"7", "A: 1x01", "2024-01-01"⟩ []).2
  ∧ ((insertIfAbsent ⟨"7", "A: 1x01", "2024-01-01"⟩ []).2.filter
        (fun r => r.uid == (⟨"7", "A: 1x01", "2024-01-01"⟩ : Event).uid)).length = 1 :=
  claim_c2_insert_reports_occurrence ⟨"7", "A: 1x01", "2024-01-01"⟩ [] (by simp [uids])

/-- C8.  Failure isolation of `update_schedule`: a fetch failure leaves the
store untouched; a parse failure leaves the store untouched; a storage
failure on individual records only skips those records — the loop behaves
as if the failing records were absent, so the remaining records are still
processed. -/
theorem claim_c8_failure_isolation (s : Store) (parse : String → Option (List Event))
    (insFail : Event → Bool) (raw : String) (evs : List Event)
    (hparse : parse raw = none) :
    update_schedule s none parse insFail = s
  ∧ update_schedule s (some raw) parse insFail = s
  ∧ processEvents insFail evs s
      = processEvents (fun _ => false) (evs.filter (fun e => !insFail e)) s := by
  refine ⟨rfl, by simp only [update_schedule, hparse], ?_⟩
  induction evs generalizing s with
  | nil => rfl
  | cons e rest ih =>
    by_cases hf : insFail e = true
    · simp only [processEvents, if_pos hf, List.filter_cons, hf]
      simp only [Bool.not_true, Bool.false_eq_true, if_neg, ite_false]
      exact ih s
    · have hf2 : insFail e = false := Bool.not_eq_true _ ▸ hf
      simp only [processEvents, hf2, Bool.false_eq_true, if_neg, ite_false,
        List.filter_cons, Bool.not_false, if_pos, ite_true]
      exact ih ((insertIfAbsent e s).2)

/-! ## Lexical comparison of ISO date strings -/

theorem digitChar_toNat (k : Nat) (hk : k < 10) : (digitChar k).toNat = 48 + k := by
  interval_cases k <;> rfl

theorem lexLe_pad (w : Nat) : ∀ a b : Nat, a < 10 ^ w → b < 10 ^ w →
    ∀ cs ds : List Char,
    lexLe (padDigits w a ++ cs) (padDigits w b ++ ds)
      = if a < b then true else if a = b then lexLe cs ds else false := by
  induction w with
  | zero =>
    intro a b ha hb cs ds
    have ha0 : a = 0 := by simpa using ha
    have hb0 : b = 0 := by simpa using hb
    subst ha0; subst hb0
    simp [padDigits]
  | succ w ih =>
    intro a b ha hb cs ds
    have hKpos : 0 < 10 ^ w := Nat.pos_pow_of_pos w (by norm_num)
    have hmul : 10 ^ (w + 1) = 10 ^ w * 10 := pow_succ 10 w
    have hda : a / 10 ^ w < 10 := Nat.div_lt_of_lt_mul (hmul ▸ ha)
    have hdb : b / 10 ^ w < 10 := Nat.div_lt_of_lt_mul (hmul ▸ hb)
    have hea : 10 ^ w * (a / 10 ^ w) + a % 10 ^ w = a := Nat.div_add_mod a (10 ^ w)
    have heb : 10 ^ w * (b / 10 ^ w) + b % 10 ^ w = b := Nat.div_add_mod b (10 ^ w)
    simp only [padDigits, List.cons_append, lexLe,
      digitChar_toNat _ hda, digitChar_toNat _ hdb]
    rcases Nat.lt_trichotomy (a / 10 ^ w) (b / 10 ^ w) with hlt | heq | hgt
    · have hab : a < b := Nat.lt_of_div_lt_div hlt
      rw [if_pos (by omega), if_pos hab]
    · rw [if_neg (by omega), if_neg (by omega)]
      simp only [List.append_eq]
      rw [ih (a % 10 ^ w) (b % 10 ^ w) (Nat.mod_lt a hKpos) (Nat.mod_lt b hKpos) cs ds]
      rw [heq] at hea
      split_ifs <;> first | rfl | (exfalso; omega)
    · have hba : b < a := Nat.lt_of_div_lt_div hgt
      rw [if_neg (by omega), if_pos (by omega), if_neg (by omega), if_neg (by omega)]

theorem dateLe_iff (a b : CalDate) : dateLe a b = true ↔
    (a.y < b.y ∨ (a.y = b.y ∧ (a.m < b.m ∨ (a.m = b.m ∧ a.d ≤ b.d)))) := by
  simp [dateLe, Nat.blt_eq, Nat.ble_eq, Bool.or_eq_true, Bool.and_eq_true, Nat.beq_eq]

theorem dateLt_iff (a b : CalDate) : dateLt a b = true ↔
    (a.y < b.y ∨ (a.y = b.y ∧ (a.m < b.m ∨ (a.m = b.m ∧ a.d < b.d)))) := by
  simp [dateLt, Nat.blt_eq, Bool.or_eq_true, Bool.and_eq_true, Nat.beq_eq]

theorem DAYS_IN_MONTH_le (m : Nat) : DAYS_IN_MONTH m ≤ 31 := by
  unfold DAYS_IN_MONTH
  rcases m with _|_|_|_|_|_|_|_|_|_|_|_|_|m <;> simp

theorem daysInMonthY_le (y m : Nat) : daysInMonthY y m ≤ 32 := by
  unfold daysInMonthY
  have := DAYS_IN_MONTH_le m
  split <;> omega

theorem valid_bounds (t : CalDate) (h : t.valid) :
    t.y < 10 ^ 4 ∧ t.m < 10 ^ 2 ∧ t.d < 10 ^ 2 := by
  obtain ⟨h1, h2, h3, h4, h5, h6⟩ := h
  have := daysInMonthY_le t.y t.m
  refine ⟨by norm_num; omega, by norm_num; omega, by norm_num; omega⟩

theorem strLe_isoformat (a b : CalDate) (ha : a.valid) (hb : b.valid) :
    strLe (isoformat a) (isoformat b) = dateLe a b := by
  obtain ⟨hay, ham, had⟩ := valid_bounds a ha
  obtain ⟨hby, hbm, hbd⟩ := valid_bounds b hb
  show lexLe (padDigits 4 a.y ++ '-' :: (padDigits 2 a.m ++ '-' :: padDigits 2 a.d))
      (padDigits 4 b.y ++ '-' :: (padDigits 2 b.m ++ '-' :: padDigits 2 b.d)) = dateLe a b
  rw [lexLe_pad 4 a.y b.y hay hby]
  have hdash : ∀ X Y : List Char, lexLe ('-' :: X) ('-' :: Y) = lexLe X Y := by
    intro X Y
    simp [lexLe]
  rcases Nat.lt_trichotomy a.y b.y with hy | hy | hy
  · rw [if_pos hy]
    have : dateLe a b = true := (dateLe_iff a b).mpr (Or.inl hy)
    rw [this]
  · rw [if_neg (by omega), if_pos hy, hdash, lexLe_pad 2 a.m b.m ham hbm]
    rcases Nat.lt_trichotomy a.m b.m with hm | hm | hm
    · rw [if_pos hm]
      have : dateLe a b = true := (dateLe_iff a b).mpr (Or.inr ⟨hy, Or.inl hm⟩)
      rw [this]
    · rw [if_neg (by omega), if_pos hm, hdash,
        show padDigits 2 a.d = padDigits 2 a.d ++ [] from (List.append_nil _).symm,
        show padDigits 2 b.d = padDigits 2 b.d ++ [] from (List.append_nil _).symm,
        lexLe_pad 2 a.d b.d had hbd]
      rcases Nat.lt_trichotomy a.d b.d with hd | hd | hd
      · rw [if_pos hd]
        have : dateLe a b = true := (dateLe_iff a b).mpr (Or.inr ⟨hy, Or.inr ⟨hm, by omega⟩⟩)
        rw [this]
      · rw [if_neg (by omega), if_pos hd]
        have h1 : lexLe ([] : List Char) [] = true := rfl
        rw [h1]
        have : dateLe a b = true := (dateLe_iff a b).mpr (Or.inr ⟨hy, Or.inr ⟨hm, by omega⟩⟩)
        rw [this]
      · rw [if_neg (by omega), if_neg (by omega)]
        have : ¬ dateLe a b = true := by
          rw [dateLe_iff]
          omega
        simp only [Bool.not_eq_true] at this
        rw [this]
    · rw [if_neg (by omega), if_neg (by omega)]
      have : ¬ dateLe a b = true := by
        rw [dateLe_iff]
        omega
      simp only [Bool.not_eq_true] at this
      rw [this]
  · rw [if_neg (by omega), if_neg (by omega)]
    have : ¬ dateLe a b = true := by
      rw [dateLe_iff]
      omega
    simp only [Bool.not_eq_true] at this
    rw [this]

/-- C3.  `queryByDateRange` returns exactly the stored rows whose
`start_date` lies in the closed range, the comparison being lexical on the
ISO strings; and on valid calendar dates that lexical comparison coincides
with the chronological (`datetime.date`) comparison `dateLe`. -/
theorem claim_c3_range_query_exact (s : Store) (d1 d2 dd : CalDate)
    (h1 : d1.valid) (h2 : d2.valid) (hdd : dd.valid)
    (_h12 : dateLe d1 d2 = true) (e : Event) (he : e.start_date = isoformat dd) :
    e ∈ queryByDateRange s (isoformat d1) (isoformat d2)
      ↔ e ∈ s ∧ dateLe d1 dd = true ∧ dateLe dd d2 = true := by
  unfold queryByDateRange
  rw [List.mem_filter, he, strLe_isoformat d1 dd h1 hdd, strLe_isoformat dd d2 hdd h2,
    Bool.and_eq_true]

theorem claim_c3_range_query_exact_witness :
    dateLe ⟨2024, 5, 9⟩ ⟨2024, 5, 12⟩ = true
  ∧ ((⟨"1", "A: 1x01", "2024-05-10"⟩ : Event)
        ∈ queryByDateRange [⟨"1", "A: 1x01", "2024-05-10"⟩]
            (isoformat ⟨2024, 5, 9⟩) (isoformat ⟨2024, 5, 12⟩)
      ↔ (⟨"1", "A: 1x01", "2024-05-10"⟩ : Event) ∈ [(⟨"1", "A: 1x01", "2024-05-10"⟩ : Event)]
          ∧ dateLe ⟨2024, 5, 9⟩ ⟨2024, 5, 10⟩ = true
          ∧ dateLe ⟨2024, 5, 10⟩ ⟨2024, 5, 12⟩ = true) :=
  ⟨by decide,
   claim_c3_range_query_exact [⟨"1", "A: 1x01", "2024-05-10"⟩]
      ⟨2024, 5, 9⟩ ⟨2024, 5, 12⟩ ⟨2024, 5, 10⟩ (by decide) (by decide) (by decide)
      (by decide) ⟨"1", "A: 1x01", "2024-05-10"⟩ rfl⟩

/-- C4.  The weekly end bound `sunday = today + (6 - today.weekday()) % 7`
days is the first Sunday on or after today inclusive: it falls on a Sunday,
no day from today up to (excluding) it is a Sunday, a Sunday today gives
`sunday = today` (a single-day range), and a Wednesday today gives the
following Sunday four days later. -/
theorem claim_c4_next_sunday (t : CalDate) :
    wdOfOrd (sundayOrdinal t) = 6
  ∧ (∀ j, toOrdinal t ≤ j → j < sundayOrdinal t → wdOfOrd j ≠ 6)
  ∧ (weekday t = 6 → sundayOrdinal t = toOrdinal t)
  ∧ (weekday t = 2 → sundayOrdinal t = toOrdinal t + 4) := by
  unfold sundayOrdinal weekday wdOfOrd
  refine ⟨by omega, fun j hj1 hj2 => by omega, fun h => by omega, fun h => by omega⟩

theorem claim_c4_next_sunday_witness :
    weekday ⟨2024, 5, 8⟩ = 2 ∧ sundayOrdinal ⟨2024, 5, 8⟩ = toOrdinal ⟨2024, 5, 8⟩ + 4 :=
  ⟨by decide, (claim_c4_next_sunday ⟨2024, 5, 8⟩).2.2.2 (by decide)⟩

theorem claim_c8_failure_isolation_witness :
    update_schedule [⟨"old", "O: 1x01", "2024-01-01"⟩] none (fun _ => none)
        (fun e => e.uid == "bad") = [⟨"old", "O: 1x01", "2024-01-01"⟩]
  ∧ update_schedule [⟨"old", "O: 1x01", "2024-01-01"⟩] (some "junk") (fun _ => none)
        (fun e => e.uid == "bad") = [⟨"old", "O: 1x01", "2024-01-01"⟩]
  ∧ processEvents (fun e => e.uid == "bad")
        [⟨"bad", "B: 2x02", "2024-02-02"⟩, ⟨"ok", "K: 3x03", "2024-03-03"⟩]
        [⟨"old", "O: 1x01", "2024-01-01"⟩]
      = processEvents (fun _ => false)
          (([⟨"bad", "B: 2x02", "2024-02-02"⟩, ⟨"ok", "K: 3x03", "2024-03-03"⟩].filter
              (fun e => !(e.uid == "bad"))))
          [⟨"old", "O: 1x01", "2024-01-01"⟩] :=
  claim_c8_failure_isolation [⟨"old", "O: 1x01", "2024-01-01"⟩] (fun _ => none)
    (fun e => e.uid == "bad") "junk"
    [⟨"bad", "B: 2x02", "2024-02-02"⟩, ⟨"ok", "K: 3x03", "2024-03-03"⟩] rfl

/-! ## Round-trip of `isoformat` and `fromisoformat` -/

theorem digitChar_isDig (k : Nat) (hk : k < 10) : isDig (digitChar k) = true := by
  interval_cases k <;> decide

theorem digToNat_digitChar (k : Nat) (hk : k < 10) : digToNat (digitChar k) = k := by
  interval_cases k <;> decide

theorem isoformat_data (t : CalDate) : (isoformat t).data =
    [digitChar (t.y / 1000), digitChar (t.y % 1000 / 100),
     digitChar (t.y % 1000 % 100 / 10), digitChar (t.y % 1000 % 100 % 10), '-',
     digitChar (t.m / 10), digitChar (t.m % 10), '-',
     digitChar (t.d / 10), digitChar (t.d % 10)] := by
  show padDigits 4 t.y ++ '-' :: (padDigits 2 t.m ++ '-' :: padDigits 2 t.d) = _
  simp only [padDigits, pow_succ, pow_zero, one_mul, Nat.div_one, Nat.mod_one,
    List.cons_append, List.nil_append]
  norm_num

theorem fromIso_isoformat (t : CalDate) (h : t.valid) : fromIso (isoformat t) = some t := by
  obtain ⟨hy, hm, hd⟩ := valid_bounds t h
  have hy1 : t.y / 1000 < 10 := by omega
  have hy2 : t.y % 1000 / 100 < 10 := by omega
  have hy3 : t.y % 1000 % 100 / 10 < 10 := by omega
  have hy4 : t.y % 1000 % 100 % 10 < 10 := by omega
  have hm1 : t.m / 10 < 10 := by omega
  have hm2 : t.m % 10 < 10 := by omega
  have hd1 : t.d / 10 < 10 := by omega
  have hd2 : t.d % 10 < 10 := by omega
  unfold fromIso
  rw [isoformat_data]
  simp only [digitChar_isDig _ hy1, digitChar_isDig _ hy2, digitChar_isDig _ hy3,
    digitChar_isDig _ hy4, digitChar_isDig _ hm1, digitChar_isDig _ hm2,
    digitChar_isDig _ hd1, digitChar_isDig _ hd2,
    digToNat_digitChar _ hy1, digToNat_digitChar _ hy2, digToNat_digitChar _ hy3,
    digToNat_digitChar _ hy4, digToNat_digitChar _ hm1, digToNat_digitChar _ hm2,
    digToNat_digitChar _ hd1, digToNat_digitChar _ hd2,
    beq_self_eq_true, Bool.and_true, Bool.true_and, Bool.and_self, if_true, ite_true]
  have hyv : t.y / 1000 * 1000 + t.y % 1000 / 100 * 100 + t.y % 1000 % 100 / 10 * 10
      + t.y % 1000 % 100 % 10 = t.y := by omega
  have hmv : t.m / 10 * 10 + t.m % 10 = t.m := by omega
  have hdv : t.d / 10 * 10 + t.d % 10 = t.d := by omega
  rw [hyv, hmv, hdv]
  have ht : (⟨t.y, t.m, t.d⟩ : CalDate) = t := rfl
  rw [ht, if_pos h]

/-! ## Inclusion in the weekly grouped view -/

theorem titlesCount_addToTitles (ts : List (String × List String)) (t ep : String) :
    ((addToTitles ts t ep).map (fun q => q.2.length)).sum
      = ((ts.map (fun q => q.2.length)).sum) + 1 := by
  induction ts with
  | nil => simp [addToTitles]
  | cons p rest ih =>
    obtain ⟨t0, eps⟩ := p
    unfold addToTitles
    split
    · simp only [List.map_cons, List.sum_cons, List.length_append, List.length_cons,
        List.length_nil]
      omega
    · simp only [List.map_cons, List.sum_cons, ih]
      omega

theorem epCount_addToSched (sch : Sched) (dt : CalDate) (t ep : String) :
    epCount (addToSched sch dt t ep) = epCount sch + 1 := by
  induction sch with
  | nil => simp [addToSched, epCount, addToTitles]
  | cons p rest ih =>
    obtain ⟨d0, ts⟩ := p
    unfold addToSched
    split
    · simp only [epCount, List.map_cons, List.sum_cons, titlesCount_addToTitles]
      omega
    · simp only [epCount, List.map_cons, List.sum_cons] at ih ⊢
      omega

/-- C5.  For an event in the weekly range (valid date, not before today),
the grouping step records the event — exactly one episode entry — if and
only if `summary.split(": ")` yields exactly two parts and the episode
descriptor's `split("x")` yields exactly two tokens; otherwise the record
is excluded and the schedule is unchanged. -/
theorem claim_c5_weekly_split_inclusion (today dd : CalDate) (hdd : dd.valid)
    (hrange : dateLe today dd = true) (e : Event) (he : e.start_date = isoformat dd)
    (st : Sched × String) :
    epCount (buildStep today st e).1 = epCount st.1 +
      (match pySplitOn e.summary ": " with
       | [_, epInfo] => if (pySplitOn epInfo "x").length = 2 then 1 else 0
       | _ => 0) := by
  unfold buildStep
  rw [he, fromIso_isoformat dd hdd]
  have hnlt : dateLt dd today = false := by
    cases hb : dateLt dd today
    · rfl
    · exfalso
      rw [dateLe_iff] at hrange
      rw [dateLt_iff] at hb
      omega
  simp only [hnlt, Bool.false_eq_true, if_neg, ite_false]
  rcases hsplit : pySplitOn e.summary ": " with _ | ⟨a, _ | ⟨b, _ | _⟩⟩ <;>
    simp only []
  · omega
  · omega
  · rcases hx : pySplitOn b "x" with _ | ⟨s1, _ | ⟨s2, _ | _⟩⟩ <;>
      simp only [List.length_nil, List.length_cons]
    · simp
    · simp
    · rw [epCount_addToSched]
      simp
    · rw [if_neg (by omega)]
      omega
  · omega

theorem claim_c5_weekly_split_inclusion_witness :
    epCount (buildStep ⟨2024, 5, 9⟩ ([], "") ⟨"1", "Show A: 2x05", "2024-05-10"⟩).1
      = epCount ([] : Sched) +
        (match pySplitOn "Show A: 2x05" ": " with
         | [_, epInfo] => if (pySplitOn epInfo "x").length = 2 then 1 else 0
         | _ => 0) :=
  claim_c5_weekly_split_inclusion ⟨2024, 5, 9⟩ ⟨2024, 5, 10⟩ (by decide) (by decide)
    ⟨"1", "Show A: 2x05", "2024-05-10"⟩ (by decide) ([], "")

/-! ## Redundancy of the defensive date filter -/

theorem buildStep_eq_noSkip (today : CalDate) (ht : today.valid) (e : Event)
    (dd : CalDate) (hdd : dd.valid) (he : e.start_date = isoformat dd)
    (hle : strLe (isoformat today) e.start_date = true) (st : Sched × String) :
    buildStep today st e = buildStepNoSkip today st e := by
  unfold buildStep buildStepNoSkip
  rw [he, fromIso_isoformat dd hdd]
  have hge : dateLe today dd = true := by
    rw [he, strLe_isoformat today dd ht hdd] at hle
    exact hle
  have hnlt : dateLt dd today = false := by
    cases hb : dateLt dd today
    · rfl
    · exfalso
      rw [dateLe_iff] at hge
      rw [dateLt_iff] at hb
      omega
  simp only [hnlt, Bool.false_eq_true, if_neg, ite_false]

theorem foldl_buildStep_eq (today : CalDate) (ht : today.valid) :
    ∀ l : List Event,
      (∀ e ∈ l, (∃ dd : CalDate, dd.valid ∧ e.start_date = isoformat dd)
        ∧ strLe (isoformat today) e.start_date = true) →
      ∀ st, l.foldl (buildStep today) st = l.foldl (buildStepNoSkip today) st := by
  intro l
  induction l with
  | nil => intro _ _; rfl
  | cons e rest ih =>
    intro hl st
    obtain ⟨⟨dd, hdd, he⟩, hle⟩ := hl e (List.mem_cons_self e rest)
    rw [List.foldl_cons, List.foldl_cons,
      buildStep_eq_noSkip today ht e dd hdd he hle st]
    exact ih (fun e2 h2 => hl e2 (List.mem_cons_of_mem e h2)) _

/-- C10.  When every stored `start_date` is a valid ISO calendar date (as
ingestion guarantees), the weekly view's defensive `start_date < today`
skip never fires on the rows returned by the range query, whose inclusive
lower bound is already `today`: the grouped view built with the skip
equals the one built with the skip removed. -/
theorem claim_c10_defensive_skip_redundant (s : Store) (today : CalDate)
    (ht : today.valid)
    (hs : ∀ e ∈ s, ∃ dd : CalDate, dd.valid ∧ e.start_date = isoformat dd) :
    buildSchedule today
        (queryByDateRange s (isoformat today) (isoformat (sundayDate today)))
      = buildScheduleNoSkip today
          (queryByDateRange s (isoformat today) (isoformat (sundayDate today))) := by
  unfold buildSchedule buildScheduleNoSkip
  apply foldl_buildStep_eq today ht
  intro e hel
  rw [queryByDateRange, List.mem_filter, Bool.and_eq_true] at hel
  exact ⟨hs e hel.1, hel.2.1⟩

theorem claim_c10_defensive_skip_redundant_witness :
    buildSchedule ⟨2024, 5, 9⟩
        (queryByDateRange [⟨"1", "Show A: 2x05", "2024-05-10"⟩]
          (isoformat ⟨2024, 5, 9⟩) (isoformat (sundayDate ⟨2024, 5, 9⟩)))
      = buildScheduleNoSkip ⟨2024, 5, 9⟩
          (queryByDateRange [⟨"1", "Show A: 2x05", "2024-05-10"⟩]
            (isoformat ⟨2024, 5, 9⟩) (isoformat (sundayDate ⟨2024, 5, 9⟩))) :=
  claim_c10_defensive_skip_redundant [⟨"1", "Show A: 2x05", "2024-05-10"⟩]
    ⟨2024, 5, 9⟩ (by decide)
    (by
      intro e he
      simp only [List.mem_singleton] at he
      subst he
      exact ⟨⟨2024, 5, 10⟩, by decide, by decide⟩)

/-! ## Tomorrow notifications -/

/-- C9.  Every stored event dated tomorrow yields a reminder message: a
summary splitting on `": "` into exactly two parts yields the structured
show-name/episode message, and any other summary falls back to a generic
reminder quoting the raw summary verbatim. -/
theorem claim_c9_notification_fallback (store : Store) (today : CalDate) (e : Event)
    (he : e ∈ store) (hd : e.start_date = isoformat (tomorrowDate today)) :
    notificationMessage e.summary ∈ send_notifications store today
  ∧ ((pySplitOn e.summary ": ").length ≠ 2 →
      notificationMessage e.summary = "Reminder: " ++ e.summary ++ " airs tomorrow!")
  ∧ (∀ a b : String, pySplitOn e.summary ": " = [a, b] →
      notificationMessage e.summary
        = "Reminder: " ++ a ++ "\n🔴 Episode: " ++ b ++ " airs tomorrow!") := by
  refine ⟨?_, ?_, ?_⟩
  · unfold send_notifications
    apply List.mem_map_of_mem
    rw [queryByDate, List.mem_filter]
    exact ⟨he, by rw [hd]; exact beq_self_eq_true _⟩
  · intro hlen
    unfold notificationMessage
    rcases hs : pySplitOn e.summary ": " with _ | ⟨a, _ | ⟨b, _ | _⟩⟩ <;> try rfl
    exact absurd (by rw [hs]; rfl) hlen
  · intro a b hab
    unfold notificationMessage
    rw [hab]

theorem claim_c9_notification_fallback_witness :
    notificationMessage ("Malformed Entry" : String)
        ∈ send_notifications [⟨"m", "Malformed Entry", "2024-05-10"⟩] ⟨2024, 5, 9⟩
  ∧ ((pySplitOn ("Malformed Entry" : String) ": ").length ≠ 2 →
      notificationMessage ("Malformed Entry" : String)
        = "Reminder: " ++ "Malformed Entry" ++ " airs tomorrow!")
  ∧ (∀ a b : String, pySplitOn ("Malformed Entry" : String) ": " = [a, b] →
      notificationMessage ("Malformed Entry" : String)
        = "Reminder: " ++ a ++ "\n🔴 Episode: " ++ b ++ " airs tomorrow!") :=
  claim_c9_notification_fallback [⟨"m", "Malformed Entry", "2024-05-10"⟩] ⟨2024, 5, 9⟩
    ⟨"m", "Malformed Entry", "2024-05-10"⟩ (by simp) (by decide)

/-! ## Concrete weekly-render scenarios -/

/-- C6.  The rendered weekly message takes every displayed season from the
single loop-carried `season` variable: with Show A (season 1) processed
before Show B (season 3) on the same day, the message shows
"Show A (Season 3)" — the last-processed record's season — and never
"Show A (Season 1)"; the final loop variable is "3".  The per-(date, title)
variant modelled from the spec instead shows each show's own season. -/
theorem claim_c6_season_loop_variable :
    containsStr (send_weekly_schedule
        [⟨"1", "Show A: 1x01", "2024-05-10"⟩, ⟨"2", "Show B: 3x07", "2024-05-10"⟩]
        ⟨2024, 5, 9⟩) "- Show A (Season 3)" = true
  ∧ containsStr (send_weekly_schedule
        [⟨"1", "Show A: 1x01", "2024-05-10"⟩, ⟨"2", "Show B: 3x07", "2024-05-10"⟩]
        ⟨2024, 5, 9⟩) "- Show A (Season 1)" = false
  ∧ (buildSchedule ⟨2024, 5, 9⟩
        (queryByDateRange
          [⟨"1", "Show A: 1x01", "2024-05-10"⟩, ⟨"2", "Show B: 3x07", "2024-05-10"⟩]
          (isoformat ⟨2024, 5, 9⟩) (isoformat (sundayDate ⟨2024, 5, 9⟩)))).2 = "3"
  ∧ containsStr (renderMessageG (buildScheduleG ⟨2024, 5, 9⟩
        (queryByDateRange
          [⟨"1", "Show A: 1x01", "2024-05-10"⟩, ⟨"2", "Show B: 3x07", "2024-05-10"⟩]
          (isoformat ⟨2024, 5, 9⟩) (isoformat (sundayDate ⟨2024, 5, 9⟩)))))
      "- Show A (Season 1)" = true
  ∧ containsStr (renderMessageG (buildScheduleG ⟨2024, 5, 9⟩
        (queryByDateRange
          [⟨"1", "Show A: 1x01", "2024-05-10"⟩, ⟨"2", "Show B: 3x07", "2024-05-10"⟩]
          (isoformat ⟨2024, 5, 9⟩) (isoformat (sundayDate ⟨2024, 5, 9⟩)))))
      "- Show B (Season 3)" = true := by
  refine ⟨by decide, by decide, by decide, by decide, by decide⟩

/-- C7 counterexample.  In the spec's scenario (Show A 2x05 and 2x06 on
2024-05-10, today 2024-05-09), the weekly render contains no
"Thursday, May 10" heading: 2024-05-10 is a Friday, so
`strftime("%A, %B %d")` produces "Friday, May 10". -/
theorem claim_c7_scenario_counterexample :
    containsStr (send_weekly_schedule
        [⟨"1", "Show A: 2x05", "2024-05-10"⟩, ⟨"2", "Show A: 2x06", "2024-05-10"⟩]
        ⟨2024, 5, 9⟩) "Thursday, May 10" = false
  ∧ dayHeading ⟨2024, 5, 10⟩ = "Friday, May 10"
  ∧ weekday ⟨2024, 5, 10⟩ = 4 := by
  refine ⟨by decide, by decide, by decide⟩

/-- C7 amended.  The scenario's weekly render carries the heading
"Friday, May 10" listing "Show A" with episodes displayed as "5" and "6",
the leading zeros being stripped for display only: the grouped schedule
still stores the tokens "05" and "06". -/
theorem claim_c7_scenario_amended :
    send_weekly_schedule
        [⟨"1", "Show A: 2x05", "2024-05-10"⟩, ⟨"2", "Show A: 2x06", "2024-05-10"⟩]
        ⟨2024, 5, 9⟩
      = "📅 This week's TV schedule (from today to Sunday):\n\n👉 Friday, May 10:\n- Show A (Season 2)\n  • Episode 5\n  • Episode 6\n\n"
  ∧ (buildSchedule ⟨2024, 5, 9⟩
        (queryByDateRange
          [⟨"1", "Show A: 2x05", "2024-05-10"⟩, ⟨"2", "Show A: 2x06", "2024-05-10"⟩]
          (isoformat ⟨2024, 5, 9⟩) (isoformat (sundayDate ⟨2024, 5, 9⟩)))).1
      = [(⟨2024, 5, 10⟩, [("Show A", ["05", "06"])])] := by
  refine ⟨by decide, by decide⟩

end TvNotifier
